import Mathlib

/-!
Verification development for the Belle House Management System backend
(billing/models.py, clients/models.py, core/models.py).

The Django models are shallowly embedded: persisted rows become Lean
structures holding the fields the verified logic reads, querysets become
lists, and Python `Decimal` arithmetic (exact at the magnitudes allowed by
the fields' `max_digits`) is modelled by `Rat`.  Each definition mirrors
one Python function or property; all theorems are stated after the
definitions.
-/

namespace BelleHouse

/-! ## Generic string helpers (embedding of the Python primitives used) -/

/-- Embedding of Python `s.split(sep)` for a single-character separator:
splitting an empty string yields `[[]]`, a leading separator contributes a
leading empty component, and so on (CPython semantics of `str.split` with an
explicit separator). -/
def splitChar (sep : Char) : List Char → List (List Char)
  | [] => [[]]
  | c :: cs =>
    if c = sep then [] :: splitChar sep cs
    else
      match splitChar sep cs with
      | [] => [[c]]
      | r :: rs => (c :: r) :: rs

/-- The maximal suffix of `l` that contains no occurrence of `sep`: the text
after the last `sep`, or all of `l` when `sep` does not occur. -/
def afterLastSep (sep : Char) (l : List Char) : List Char :=
  (l.reverse.takeWhile (fun c => decide (c ≠ sep))).reverse

/-- Accumulating decimal-digit parser: fails on any non-digit character. -/
def digitsVal (acc : Nat) : List Char → Option Nat
  | [] => some acc
  | c :: cs => if c.isDigit then digitsVal (acc * 10 + (c.toNat - 48)) cs else none

/-- Parse a nonempty all-digit string as a natural number. -/
def parseNatChars : List Char → Option Nat
  | [] => none
  | l => digitsVal 0 l

/-- Embedding of Python `int(s)` on the strings this code base produces:
an optional leading minus sign followed by decimal digits; anything else
raises `ValueError`, modelled by `none`. -/
def parseIntChars : List Char → Option Int
  | '-' :: rest => (parseNatChars rest).map (fun n => -(n : Int))
  | l => (parseNatChars l).map (fun n => (n : Int))

/-- Embedding of the queryset filter `invoice_number__startswith=p`. -/
def strStartsWith (s p : String) : Bool :=
  p.data.isPrefixOf s.data

/-- Boolean lexicographic comparison of character lists, by code point:
the strict order a `CharField` is sorted by under `order_by` (and the
order Python itself compares strings with). -/
def lexLtChars : List Char → List Char → Bool
  | [], [] => false
  | [], _ :: _ => true
  | _ :: _, [] => false
  | a :: as, b :: bs =>
    if a < b then true else if b < a then false else lexLtChars as bs

/-- Binary maximum in the lexicographic string order. -/
def lexMaxStr (a b : String) : String :=
  if lexLtChars a.data b.data then b else a

/-- Embedding of `qs.order_by(descending-by-number).first()` projected to the
number column: the lexicographically greatest element of the list, `none` on
the empty list. -/
def descFirst : List String → Option String
  | [] => none
  | s :: rest => some (rest.foldl lexMaxStr s)

/-! ## core/models.py: soft delete and managers -/

/-- Projection of a persisted `Invoice` row to the columns
`generate_invoice_number` can observe: the number itself and the
`is_deleted` soft-delete flag inherited from `BaseModel`. -/
structure StoredInvoice where
  invoice_number : String
  is_deleted : Bool
deriving DecidableEq, Repr

/-- `AllObjectsManager.get_queryset`: every record, soft-deleted included. -/
def all_objects (db : List StoredInvoice) : List StoredInvoice :=
  db

/-- `ActiveManager.get_queryset`: records with `is_deleted=False` only. -/
def active_objects (db : List StoredInvoice) : List StoredInvoice :=
  db.filter (fun r => !r.is_deleted)

/-! ## billing/models.py: invoice numbering -/

/-- Embedding of `Invoice.generate_invoice_number`.  The source fixes
`pfx0 = "BH"`; it is a parameter here because the spec abstracts the
literal, and nothing in the function depends on its value.  The source
queries `Invoice.all_objects.filter(invoice_number__startswith=pfx)`,
orders descending by `invoice_number` (a string sort) and takes the first
row; the row's number is split on a slash, its last component parsed with
`int`, and `ValueError`/`IndexError` fall back to 1. -/
def generate_invoice_number (pfx0 : String) (db : List StoredInvoice)
    (current_year : Nat) : String :=
  let pfx := pfx0 ++ "/" ++ toString current_year ++ "/"
  let last_invoice :=
    descFirst (((all_objects db).map StoredInvoice.invoice_number).filter
      (fun s => strStartsWith s pfx))
  let new_num : Int :=
    match last_invoice with
    | some s =>
      match (splitChar '/' s.data).getLast? with
      | some comp =>
        match parseIntChars comp with
        | some last_num => last_num + 1
        | none => 1
      | none => 1
    | none => 1
  pfx ++ toString new_num

/-- Restatement of the numbering rule in the words of the specification:
among the stored numbers that begin with the year's pfx, select the
greatest one, parse its text after the last slash as an integer and add 1;
if no such number exists or the parse fails, use 1.  Stated with
`List.max?` and `afterLastSep` so that it is independent of the source's
sort-and-take-first and split-based formulation. -/
def spec_next_invoice_number (pfx0 : String) (db : List StoredInvoice)
    (current_year : Nat) : String :=
  let pfx := pfx0 ++ "/" ++ toString current_year ++ "/"
  let stored := (db.map StoredInvoice.invoice_number).filter
      (fun s => strStartsWith s pfx)
  let n : Int :=
    match stored.max? with
    | some s =>
      match parseIntChars (afterLastSep '/' s.data) with
      | some k => k + 1
      | none => 1
    | none => 1
  pfx ++ toString n

/-- Sequential creation of `n` invoices in year `current_year`, starting
from the persisted set `db`: each step saves a new invoice with an empty
`invoice_number`, so `Invoice.save` assigns it
`generate_invoice_number` (with the source's literal `"BH"`). -/
def createInvoices (db : List StoredInvoice) (current_year : Nat) :
    Nat → List StoredInvoice
  | 0 => db
  | n + 1 =>
    let db' := createInvoices db current_year n
    db' ++ [⟨generate_invoice_number "BH" db' current_year, false⟩]

/-! ## billing/models.py: invoice rows, totals and the save hook -/

/-- The client fields `Invoice.save` copies from `self.project.client`
(a `clients.ClientProfile` row). -/
structure ClientProfile where
  full_name : String
  address : String
  phone : String
deriving DecidableEq, Repr

/-- An `InvoiceItem` row, restricted to the fields entering any computed
value (`description` and the display `order` never do). -/
structure InvoiceItem where
  quantity : Rat
  unit_price : Rat
deriving DecidableEq, Repr

/-- `InvoiceItem.total_price`: quantity times unit price. -/
def total_price (it : InvoiceItem) : Rat :=
  it.quantity * it.unit_price

/-- An `Invoice` row restricted to the fields the verified logic reads or
writes; `items` stands for the reverse relation `self.items.all()`. -/
structure Invoice where
  invoice_number : String
  client_name : String
  client_address : String
  client_phone : String
  tax_percentage : Rat
  advance_payment : Rat
  items : List InvoiceItem
deriving DecidableEq, Repr

/-- `Invoice.subtotal`: sum of `total_price` over the invoice's items. -/
def subtotal (inv : Invoice) : Rat :=
  (inv.items.map total_price).sum

/-- `Invoice.tax_amount`: `subtotal * (tax_percentage / 100)`. -/
def tax_amount (inv : Invoice) : Rat :=
  subtotal inv * (inv.tax_percentage / 100)

/-- `Invoice.total_ttc`: `subtotal + tax_amount`. -/
def total_ttc (inv : Invoice) : Rat :=
  subtotal inv + tax_amount inv

/-- `Invoice.net_to_pay`: `total_ttc - advance_payment`. -/
def net_to_pay (inv : Invoice) : Rat :=
  total_ttc inv - inv.advance_payment

/-- Embedding of `Invoice.save`.  `project` is the client reached through
`self.project` when `self.project_id` is set, `none` otherwise; `db` and
`current_year` feed the number generator.  First the invoice number is
generated if the field is empty (falsy), then the client snapshot is
copied if `client_name` is empty and a project reference is present. -/
def Invoice.save (inv : Invoice) (project : Option ClientProfile)
    (db : List StoredInvoice) (current_year : Nat) : Invoice :=
  let inv1 :=
    if inv.invoice_number = "" then
      { inv with invoice_number := generate_invoice_number "BH" db current_year }
    else inv
  match project with
  | some client =>
    if inv1.client_name = "" then
      { inv1 with
        client_name := client.full_name
        client_address := client.address
        client_phone := client.phone }
    else inv1
  | none => inv1

/-! ## clients/models.py: phases and project save -/

/-- `ActiveProject.Phase`: the phase values in their declared order. -/
def phaseOrder : List String :=
  ["CONCEPTION", "IMPLANTATION", "FONDATIONS", "ELEVATION_MURS", "DALLE",
   "CREPISSAGE", "ELECTRICITE_PLOMBERIE", "RESEAUX", "CARRELAGE_PLAFOND",
   "PEINTURE_MENUISERIE", "EXTERIEUR"]

/-- `ActiveProject.PHASE_PROGRESS`: the cumulative phase-to-percentage
dictionary, in declaration order. -/
def PHASE_PROGRESS : List (String × Nat) :=
  [("CONCEPTION", 5), ("IMPLANTATION", 8), ("FONDATIONS", 23),
   ("ELEVATION_MURS", 41), ("DALLE", 57), ("CREPISSAGE", 65),
   ("ELECTRICITE_PLOMBERIE", 81), ("RESEAUX", 87),
   ("CARRELAGE_PLAFOND", 94), ("PEINTURE_MENUISERIE", 99),
   ("EXTERIEUR", 100)]

/-- Python `PHASE_PROGRESS.get(phase, 0)`: dictionary lookup with default 0. -/
def phaseProgressGet (phase : String) : Nat :=
  match PHASE_PROGRESS.find? (fun e => e.1 == phase) with
  | some e => e.2
  | none => 0

/-- An `ActiveProject` row restricted to the fields its save hook reads or
writes. -/
structure ActiveProject where
  current_phase : String
  progress_percentage : Nat
deriving DecidableEq, Repr

/-- Embedding of `ActiveProject.save`: when `current_phase` is truthy
(a nonempty string), `progress_percentage` is overwritten from the table. -/
def ActiveProject.save (p : ActiveProject) : ActiveProject :=
  if p.current_phase ≠ "" then
    { p with progress_percentage := phaseProgressGet p.current_phase }
  else p

/-! ## General lemmas about the string helpers -/

/-- The boolean comparator agrees with the lexicographic `List.Lex` order on
character lists. -/
theorem lexLtChars_iff_lex :
    ∀ x y : List Char, lexLtChars x y = true ↔ List.Lex (fun a b : Char => a < b) x y
  | [], [] => ⟨fun h => Bool.noConfusion h, fun h => by cases h⟩
  | [], _ :: _ => ⟨fun _ => List.Lex.nil, fun _ => rfl⟩
  | _ :: _, [] => ⟨fun h => Bool.noConfusion h, fun h => by cases h⟩
  | a :: as, b :: bs => by
    show (if a < b then true else if b < a then false else lexLtChars as bs) = true ↔ _
    rcases lt_trichotomy a b with h | h | h
    · rw [if_pos h]
      exact ⟨fun _ => List.Lex.rel h, fun _ => rfl⟩
    · subst h
      rw [if_neg (lt_irrefl a), if_neg (lt_irrefl a), lexLtChars_iff_lex as bs]
      constructor
      · exact fun hl => List.Lex.cons hl
      · intro hl
        cases hl with
        | cons h2 => exact h2
        | rel h2 => exact absurd h2 (lt_irrefl a)
    · rw [if_neg (lt_asymm h), if_pos h]
      constructor
      · exact fun hf => Bool.noConfusion hf
      · intro hl
        cases hl with
        | cons h2 => exact absurd h (lt_irrefl a)
        | rel h2 => exact absurd h2 (lt_asymm h)

/-- The boolean comparator decides the standard strict order on `String`. -/
theorem strLt_iff_lexLtChars (s t : String) :
    s < t ↔ lexLtChars s.data t.data = true := by
  rw [String.lt_iff_toList_lt]
  exact Iff.rfl.trans (lexLtChars_iff_lex s.data t.data).symm

/-- The binary lexicographic maximum is `max` of the `String` linear order. -/
theorem lexMaxStr_eq_max (a b : String) : lexMaxStr a b = max a b := by
  unfold lexMaxStr
  cases hc : lexLtChars a.data b.data with
  | false =>
    rw [if_neg (fun h => Bool.noConfusion h)]
    have hnlt : ¬ a < b := by
      intro hlt
      have h2 := (strLt_iff_lexLtChars a b).mp hlt
      rw [hc] at h2
      exact Bool.noConfusion h2
    exact (max_eq_left (not_lt.mp hnlt)).symm
  | true =>
    rw [if_pos rfl]
    exact (max_eq_right ((strLt_iff_lexLtChars a b).mpr hc).le).symm

/-- Sorting descending and taking the first row computes the maximum of the
list in the `String` linear order. -/
theorem descFirst_eq_list_max (l : List String) : descFirst l = l.max? := by
  cases l with
  | nil => rfl
  | cons s rest =>
    show some (rest.foldl lexMaxStr s) = (s :: rest).max?
    have hfun : lexMaxStr = (fun a b : String => max a b) := by
      funext a b
      exact lexMaxStr_eq_max a b
    rw [hfun]
    rfl

/-- Appending an element that fails the predicate does not change
`takeWhile`. -/
theorem takeWhile_concat_false {α : Type} (p : α → Bool) (a : α) (h : p a = false) :
    ∀ xs : List α, (xs ++ [a]).takeWhile p = xs.takeWhile p
  | [] => by simp [List.takeWhile, h]
  | x :: xs => by
    cases hx : p x with
    | true => simp [List.takeWhile, hx, takeWhile_concat_false p a h xs]
    | false => simp [List.takeWhile, hx]

/-- `takeWhile` keeps a list all of whose elements satisfy the predicate. -/
theorem takeWhile_of_all {α : Type} (p : α → Bool) :
    ∀ xs : List α, (∀ x ∈ xs, p x = true) → xs.takeWhile p = xs
  | [], _ => rfl
  | x :: xs, h => by
    have hx := h x (List.mem_cons_self x xs)
    simp [List.takeWhile, hx,
      takeWhile_of_all p xs (fun y hy => h y (List.mem_cons_of_mem x hy))]

/-- `takeWhile` of an append stops inside the first part when some element
there fails the predicate. -/
theorem takeWhile_append_of_mem_false {α : Type} (p : α → Bool) (b : α)
    (hb : p b = false) :
    ∀ xs ys : List α, b ∈ xs → (xs ++ ys).takeWhile p = xs.takeWhile p
  | [], _, h => absurd h (List.not_mem_nil b)
  | x :: xs, ys, h => by
    cases hx : p x with
    | true =>
      have hbx : b ∈ xs := by
        cases List.mem_cons.mp h with
        | inl he =>
          subst he
          rw [hx] at hb
          exact Bool.noConfusion hb
        | inr hm => exact hm
      simp [List.takeWhile, hx, takeWhile_append_of_mem_false p b hb xs ys hbx]
    | false => simp [List.takeWhile, hx]

/-- Python `split` never returns an empty list of components. -/
theorem splitChar_ne_nil (sep : Char) : ∀ l : List Char, splitChar sep l ≠ []
  | [] => by simp [splitChar]
  | c :: cs => by
    unfold splitChar
    by_cases h : c = sep
    · simp [h]
    · rw [if_neg h]
      cases hs : splitChar sep cs with
      | nil => simp
      | cons r rs => simp

/-- When the separator does not occur, the text after the last separator is
the whole list. -/
theorem afterLastSep_of_not_mem (sep : Char) (l : List Char) (h : sep ∉ l) :
    afterLastSep sep l = l := by
  have hall : ∀ x ∈ l.reverse, (fun c => decide (c ≠ sep)) x = true := by
    intro x hx
    have hxl : x ∈ l := List.mem_reverse.mp hx
    exact decide_eq_true (fun he => h (he ▸ hxl))
  unfold afterLastSep
  rw [takeWhile_of_all _ _ hall, List.reverse_reverse]

/-- A leading separator does not change the text after the last separator. -/
theorem afterLastSep_cons_self (sep : Char) (cs : List Char) :
    afterLastSep sep (sep :: cs) = afterLastSep sep cs := by
  unfold afterLastSep
  rw [List.reverse_cons, takeWhile_concat_false _ sep (by simp) cs.reverse]

/-- A leading character does not change the text after the last separator
when the separator occurs later. -/
theorem afterLastSep_cons_of_mem (sep c : Char) (cs : List Char) (h : sep ∈ cs) :
    afterLastSep sep (c :: cs) = afterLastSep sep cs := by
  unfold afterLastSep
  rw [List.reverse_cons,
    takeWhile_append_of_mem_false _ sep (by simp) cs.reverse [c]
      (List.mem_reverse.mpr h)]

/-- Consing a non-separator onto a separator-free list keeps the whole list
as the text after the last separator. -/
theorem afterLastSep_cons_of_not_mem (sep c : Char) (cs : List Char)
    (hc : c ≠ sep) (h : sep ∉ cs) :
    afterLastSep sep (c :: cs) = c :: cs := by
  apply afterLastSep_of_not_mem
  intro hm
  cases List.mem_cons.mp hm with
  | inl he => exact hc he.symm
  | inr hmem => exact h hmem

/-- The last component produced by Python `split` is exactly the text after
the last separator, and `split` returns a single component exactly when the
separator does not occur. -/
theorem splitChar_spec (sep : Char) : ∀ l : List Char,
    (splitChar sep l).getLast? = some (afterLastSep sep l) ∧
    ((splitChar sep l).length = 1 ↔ sep ∉ l)
  | [] => ⟨rfl, by simp [splitChar]⟩
  | c :: cs => by
    obtain ⟨ih1, ih2⟩ := splitChar_spec sep cs
    obtain ⟨r, rs, hs⟩ : ∃ r rs, splitChar sep cs = r :: rs := by
      cases hsc : splitChar sep cs with
      | nil => exact absurd hsc (splitChar_ne_nil sep cs)
      | cons r rs => exact ⟨r, rs, rfl⟩
    by_cases hc : c = sep
    · subst hc
      have h1 : splitChar c (c :: cs) = [] :: splitChar c cs := by
        rw [splitChar, if_pos rfl]
      refine ⟨?_, ?_⟩
      · rw [h1, hs, List.getLast?_cons_cons, ← hs, ih1, afterLastSep_cons_self]
      · rw [h1, hs]
        constructor
        · intro hlen
          simp at hlen
        · intro hmem
          exact absurd (List.mem_cons_self c cs) hmem
    · have h1 : splitChar sep (c :: cs) = (c :: r) :: rs := by
        rw [splitChar, if_neg hc, hs]
      cases rs with
      | nil =>
        have hnot : sep ∉ cs := ih2.mp (by rw [hs]; rfl)
        have hr : r = afterLastSep sep cs := by
          rw [hs] at ih1
          simpa using ih1
        have hra : r = cs := hr.trans (afterLastSep_of_not_mem sep cs hnot)
        refine ⟨?_, ?_⟩
        · rw [h1]
          show some (c :: r) = some (afterLastSep sep (c :: cs))
          rw [afterLastSep_cons_of_not_mem sep c cs hc hnot, hra]
        · rw [h1]
          constructor
          · intro _ hmem
            cases List.mem_cons.mp hmem with
            | inl h2 => exact hc h2.symm
            | inr h2 => exact hnot h2
          · intro _
            rfl
      | cons r2 rs2 =>
        have hmem : sep ∈ cs := by
          by_contra hnm
          have hlen := ih2.mpr hnm
          rw [hs] at hlen
          simp at hlen
        have ih1' : (r2 :: rs2).getLast? = some (afterLastSep sep cs) := by
          rw [hs, List.getLast?_cons_cons] at ih1
          exact ih1
        refine ⟨?_, ?_⟩
        · rw [h1, List.getLast?_cons_cons, ih1',
            afterLastSep_cons_of_mem sep c cs hmem]
        · rw [h1]
          constructor
          · intro hlen
            simp at hlen
          · intro hmem2
            exact absurd (List.mem_cons_of_mem c hmem) hmem2

/-! ## Claim theorems -/

/-- C1: the claim that sequentially created invoices always receive the
contiguous numbers BH/Y/1 .. BH/Y/N fails on the code.  The first ten
creations of 2025 do produce BH/2025/1 .. BH/2025/10 (in particular the
first two match the claimed scenario), but the eleventh creation again
receives "BH/2025/10" — the descending sort is a string sort, so
"BH/2025/9" is selected as the last invoice instead of "BH/2025/10" —
producing a duplicate of an existing number (and no "BH/2025/11"),
contradicting the method's own docstring ("Generate unique invoice
number") and the model's unique constraint on the field. -/
theorem invoice_numbering_breaks_after_ten :
    (createInvoices [] 2025 2).map StoredInvoice.invoice_number =
      ["BH/2025/1", "BH/2025/2"] ∧
    ((createInvoices [] 2025 11).map StoredInvoice.invoice_number).count
      "BH/2025/10" = 2 ∧
    ((createInvoices [] 2025 11).map StoredInvoice.invoice_number).count
      "BH/2025/11" = 0 := by
  decide

/-- C2: `generate_invoice_number` returns `pfx/year/n` where `n` adds one to
the integer parsed from the text after the last slash of the greatest
stored number beginning with `pfx/year/`, and falls back to 1 when no such
number exists or the parse fails.  Stated as equality with
`spec_next_invoice_number`, the direct formalisation of that rule. -/
theorem generate_invoice_number_matches_spec_rule
    (pfx0 : String) (db : List StoredInvoice) (current_year : Nat) :
    generate_invoice_number pfx0 db current_year =
      spec_next_invoice_number pfx0 db current_year := by
  simp only [generate_invoice_number, spec_next_invoice_number, all_objects]
  rw [descFirst_eq_list_max]
  generalize ((db.map StoredInvoice.invoice_number).filter
      (fun s => strStartsWith s (pfx0 ++ "/" ++ toString current_year ++ "/"))).max? = X
  cases X with
  | none => rfl
  | some s =>
    have inner : (match (splitChar '/' s.data).getLast? with
        | some comp =>
          match parseIntChars comp with
          | some last_num => last_num + 1
          | none => (1 : Int)
        | none => (1 : Int)) =
        (match parseIntChars (afterLastSep '/' s.data) with
        | some last_num => last_num + 1
        | none => (1 : Int)) := by
      rw [(splitChar_spec '/' s.data).1]
    exact congrArg
      (fun n : Int => pfx0 ++ "/" ++ toString current_year ++ "/" ++ toString n) inner

/-- C3: for every invoice, the derived values satisfy exactly
subtotal = Σ quantity × unit price, tax = subtotal × percentage / 100,
total = subtotal + tax, and net = total − advance (which may be negative:
no clamping, witnessed by the second conjunct).  The derived values are
pure functions of the invoice, so recomputing them on an unmodified
invoice trivially yields the identical result. -/
theorem invoice_totals_formulas :
    (∀ inv : Invoice,
      subtotal inv = (inv.items.map (fun it => it.quantity * it.unit_price)).sum ∧
      tax_amount inv = subtotal inv * (inv.tax_percentage / 100) ∧
      total_ttc inv = subtotal inv + tax_amount inv ∧
      net_to_pay inv = total_ttc inv - inv.advance_payment) ∧
    (∃ inv : Invoice, net_to_pay inv < 0) := by
  refine ⟨fun inv => ⟨rfl, rfl, rfl, rfl⟩, ⟨⟨"", "", "", "", 0, 1, []⟩, ?_⟩⟩
  norm_num [net_to_pay, total_ttc, tax_amount, subtotal]

/-- C4: an invoice with no items is not an error: every derived value
computes, subtotal, tax and total are 0, and net to pay is minus the
advance payment. -/
theorem empty_invoice_totals (inv : Invoice) (h : inv.items = []) :
    subtotal inv = 0 ∧ tax_amount inv = 0 ∧ total_ttc inv = 0 ∧
    net_to_pay inv = -inv.advance_payment := by
  have hs : subtotal inv = 0 := by simp [subtotal, h]
  refine ⟨hs, ?_, ?_, ?_⟩
  · simp [tax_amount, hs]
  · simp [total_ttc, tax_amount, hs]
  · simp [net_to_pay, total_ttc, tax_amount, hs]

/-- Witness for C4 at a concrete empty-items invoice. -/
theorem empty_invoice_totals_witness :
    (⟨"", "", "", "", 18, 7, []⟩ : Invoice).items = [] ∧
    (subtotal ⟨"", "", "", "", 18, 7, []⟩ = 0 ∧
     tax_amount ⟨"", "", "", "", 18, 7, []⟩ = 0 ∧
     total_ttc ⟨"", "", "", "", 18, 7, []⟩ = 0 ∧
     net_to_pay ⟨"", "", "", "", 18, 7, []⟩ =
       -(⟨"", "", "", "", 18, 7, []⟩ : Invoice).advance_payment) :=
  ⟨rfl, empty_invoice_totals _ rfl⟩

/-- C5: on save with an empty `client_name`, a present project/client
reference makes the client's current name, address and phone be copied
into the snapshot fields; with an absent reference the copy is silently
skipped (the snapshot fields stay as they were) and the save still
succeeds (it is total). -/
theorem client_snapshot_copied_on_save (inv : Invoice) (client : ClientProfile)
    (db : List StoredInvoice) (current_year : Nat) (h : inv.client_name = "") :
    ((Invoice.save inv (some client) db current_year).client_name = client.full_name ∧
     (Invoice.save inv (some client) db current_year).client_address = client.address ∧
     (Invoice.save inv (some client) db current_year).client_phone = client.phone) ∧
    ((Invoice.save inv none db current_year).client_name = inv.client_name ∧
     (Invoice.save inv none db current_year).client_address = inv.client_address ∧
     (Invoice.save inv none db current_year).client_phone = inv.client_phone) := by
  unfold Invoice.save
  by_cases hn : inv.invoice_number = "" <;> simp [hn, h]

/-- Witness for C5 at a concrete blank invoice and client. -/
theorem client_snapshot_copied_on_save_witness :
    (⟨"", "", "", "", 18, 0, []⟩ : Invoice).client_name = "" ∧
    (((Invoice.save ⟨"", "", "", "", 18, 0, []⟩ (some ⟨"Ali Diori", "Niamey", "+227 90"⟩) [] 2025).client_name = (⟨"Ali Diori", "Niamey", "+227 90"⟩ : ClientProfile).full_name ∧
      (Invoice.save ⟨"", "", "", "", 18, 0, []⟩ (some ⟨"Ali Diori", "Niamey", "+227 90"⟩) [] 2025).client_address = (⟨"Ali Diori", "Niamey", "+227 90"⟩ : ClientProfile).address ∧
      (Invoice.save ⟨"", "", "", "", 18, 0, []⟩ (some ⟨"Ali Diori", "Niamey", "+227 90"⟩) [] 2025).client_phone = (⟨"Ali Diori", "Niamey", "+227 90"⟩ : ClientProfile).phone) ∧
     ((Invoice.save ⟨"", "", "", "", 18, 0, []⟩ none [] 2025).client_name = (⟨"", "", "", "", 18, 0, []⟩ : Invoice).client_name ∧
      (Invoice.save ⟨"", "", "", "", 18, 0, []⟩ none [] 2025).client_address = (⟨"", "", "", "", 18, 0, []⟩ : Invoice).client_address ∧
      (Invoice.save ⟨"", "", "", "", 18, 0, []⟩ none [] 2025).client_phone = (⟨"", "", "", "", 18, 0, []⟩ : Invoice).client_phone)) :=
  ⟨rfl, client_snapshot_copied_on_save _ _ _ _ rfl⟩

/-- C6: once `client_name` is nonempty, re-running the save logic leaves
all three snapshot fields unchanged, whatever the project reference now
holds; in particular the stored `client_address` is the same no matter
which client record (e.g. one with a changed address) the reference
resolves to. -/
theorem client_snapshot_immutable (inv : Invoice) (project : Option ClientProfile)
    (db : List StoredInvoice) (current_year : Nat) (h : inv.client_name ≠ "") :
    ((Invoice.save inv project db current_year).client_name = inv.client_name ∧
     (Invoice.save inv project db current_year).client_address = inv.client_address ∧
     (Invoice.save inv project db current_year).client_phone = inv.client_phone) ∧
    (∀ c c' : ClientProfile,
      (Invoice.save inv (some c) db current_year).client_address =
        (Invoice.save inv (some c') db current_year).client_address) := by
  have key : ∀ pr : Option ClientProfile,
      (Invoice.save inv pr db current_year).client_name = inv.client_name ∧
      (Invoice.save inv pr db current_year).client_address = inv.client_address ∧
      (Invoice.save inv pr db current_year).client_phone = inv.client_phone := by
    intro pr
    unfold Invoice.save
    cases pr <;> by_cases hn : inv.invoice_number = "" <;> simp [hn, h]
  exact ⟨key project, fun c c' =>
    ((key (some c)).2.1).trans ((key (some c')).2.1).symm⟩

/-- Witness for C6 at a concrete invoice with a nonempty snapshot. -/
theorem client_snapshot_immutable_witness :
    (⟨"BH/2024/3", "Hama Issa", "Zinder", "+227 91", 18, 0, []⟩ : Invoice).client_name ≠ "" ∧
    (((Invoice.save ⟨"BH/2024/3", "Hama Issa", "Zinder", "+227 91", 18, 0, []⟩ (some ⟨"Hama Issa", "Maradi", "+227 92"⟩) [] 2026).client_name = (⟨"BH/2024/3", "Hama Issa", "Zinder", "+227 91", 18, 0, []⟩ : Invoice).client_name ∧
      (Invoice.save ⟨"BH/2024/3", "Hama Issa", "Zinder", "+227 91", 18, 0, []⟩ (some ⟨"Hama Issa", "Maradi", "+227 92"⟩) [] 2026).client_address = (⟨"BH/2024/3", "Hama Issa", "Zinder", "+227 91", 18, 0, []⟩ : Invoice).client_address ∧
      (Invoice.save ⟨"BH/2024/3", "Hama Issa", "Zinder", "+227 91", 18, 0, []⟩ (some ⟨"Hama Issa", "Maradi", "+227 92"⟩) [] 2026).client_phone = (⟨"BH/2024/3", "Hama Issa", "Zinder", "+227 91", 18, 0, []⟩ : Invoice).client_phone) ∧
     (∀ c c' : ClientProfile,
       (Invoice.save ⟨"BH/2024/3", "Hama Issa", "Zinder", "+227 91", 18, 0, []⟩ (some c) [] 2026).client_address =
         (Invoice.save ⟨"BH/2024/3", "Hama Issa", "Zinder", "+227 91", 18, 0, []⟩ (some c') [] 2026).client_address)) :=
  ⟨by decide, client_snapshot_immutable _ _ _ _ (by decide)⟩

/-- C7: the invoice number is assigned at most once: a save generates a
number only when the field is empty, and a save of an invoice whose
`invoice_number` is already nonempty leaves the field unchanged. -/
theorem invoice_number_assigned_once (inv : Invoice) (project : Option ClientProfile)
    (db : List StoredInvoice) (current_year : Nat) :
    (inv.invoice_number ≠ "" →
      (Invoice.save inv project db current_year).invoice_number = inv.invoice_number) ∧
    (inv.invoice_number = "" →
      (Invoice.save inv project db current_year).invoice_number =
        generate_invoice_number "BH" db current_year) := by
  unfold Invoice.save
  constructor
  · intro h
    cases project with
    | none => simp [h]
    | some c => by_cases hcn : inv.client_name = "" <;> simp [h, hcn]
  · intro h
    cases project with
    | none => simp [h]
    | some c => by_cases hcn : inv.client_name = "" <;> simp [h, hcn]

/-- Witness for C7 at a concrete invoice that already has a number. -/
theorem invoice_number_assigned_once_witness :
    (⟨"BH/2024/3", "Hama Issa", "Zinder", "+227 91", 18, 0, []⟩ : Invoice).invoice_number ≠ "" ∧
    (Invoice.save ⟨"BH/2024/3", "Hama Issa", "Zinder", "+227 91", 18, 0, []⟩ none [] 2025).invoice_number =
      (⟨"BH/2024/3", "Hama Issa", "Zinder", "+227 91", 18, 0, []⟩ : Invoice).invoice_number :=
  ⟨by decide,
   (invoice_number_assigned_once _ none [] 2025).1 (by decide)⟩

/-- C8: setting `current_phase` to each defined phase in declaration order
and saving yields a non-decreasing `progress_percentage`, and the final
phase EXTERIEUR yields exactly 100. -/
theorem phase_progress_monotone (p : ActiveProject) :
    List.Chain' (· ≤ ·) (phaseOrder.map (fun ph =>
      (ActiveProject.save { p with current_phase := ph }).progress_percentage)) ∧
    (ActiveProject.save { p with current_phase := "EXTERIEUR" }).progress_percentage = 100 := by
  have hmap : phaseOrder.map (fun ph =>
      (ActiveProject.save { p with current_phase := ph }).progress_percentage) =
      [5, 8, 23, 41, 57, 65, 81, 87, 94, 99, 100] := rfl
  refine ⟨?_, rfl⟩
  rw [hmap]
  simp only [List.chain'_cons, List.chain'_singleton, and_true]
  omega

/-- C9: a save of a project with a set (nonempty) `current_phase`
overwrites `progress_percentage` with the table value, an unrecognised
phase yields 0, and the mapping is idempotent: saving again without
changing the phase changes nothing. -/
theorem save_overwrites_progress (p : ActiveProject) (h : p.current_phase ≠ "") :
    (ActiveProject.save p).progress_percentage = phaseProgressGet p.current_phase ∧
    (PHASE_PROGRESS.find? (fun e => e.1 == p.current_phase) = none →
      (ActiveProject.save p).progress_percentage = 0) ∧
    ActiveProject.save (ActiveProject.save p) = ActiveProject.save p := by
  have h1 : ActiveProject.save p =
      { p with progress_percentage := phaseProgressGet p.current_phase } := by
    unfold ActiveProject.save
    rw [if_pos h]
  refine ⟨by rw [h1], ?_, ?_⟩
  · intro hnone
    rw [h1]
    show phaseProgressGet p.current_phase = 0
    unfold phaseProgressGet
    rw [hnone]
  · rw [h1]
    unfold ActiveProject.save
    rw [if_pos h]

/-- Witness for C9 at a concrete project in phase FONDATIONS. -/
theorem save_overwrites_progress_witness :
    (⟨"FONDATIONS", 0⟩ : ActiveProject).current_phase ≠ "" ∧
    ((ActiveProject.save ⟨"FONDATIONS", 0⟩).progress_percentage =
       phaseProgressGet (⟨"FONDATIONS", 0⟩ : ActiveProject).current_phase ∧
     (PHASE_PROGRESS.find? (fun e => e.1 == (⟨"FONDATIONS", 0⟩ : ActiveProject).current_phase) = none →
       (ActiveProject.save ⟨"FONDATIONS", 0⟩).progress_percentage = 0) ∧
     ActiveProject.save (ActiveProject.save ⟨"FONDATIONS", 0⟩) =
       ActiveProject.save ⟨"FONDATIONS", 0⟩) :=
  ⟨by decide, save_overwrites_progress _ (by decide)⟩

/-- C10: `generate_invoice_number` reads the invoices through the
all-objects manager, so the generated number does not depend on the
`is_deleted` flags: flipping any subset of flags (in particular
soft-deleting an invoice) never changes — and so never frees for reuse —
the number the generator produces. -/
theorem generate_ignores_soft_delete_flags (pfx0 : String)
    (db : List StoredInvoice) (current_year : Nat) (g : StoredInvoice → Bool) :
    generate_invoice_number pfx0 (db.map (fun r => { r with is_deleted := g r }))
      current_year = generate_invoice_number pfx0 db current_year := by
  have hnum : (db.map (fun r => { r with is_deleted := g r })).map
      StoredInvoice.invoice_number = db.map StoredInvoice.invoice_number := by
    rw [List.map_map]
    exact List.map_congr_left (fun r _ => rfl)
  simp only [generate_invoice_number, all_objects, hnum]

end BelleHouse
